import Mathlib

/-!
Verification of the RepoMan pipeline core against its natural-language
specification.  Shallow Lean embeddings of:

* `repoman/analysis/health.py`   — heuristic health scoring,
* `repoman/execution/file_ops.py` — path resolution and file CRUD,
* `repoman/agents/builder.py`     — plan execution, fix application, voting,
* `repoman/models/router.py`      — provider selection and fallback,
* `repoman/consensus/engine.py`   — the multi-round debate protocol,
* `repoman/core/pipeline.py`      — the seven-phase controller event trace.

LLM backend calls (network I/O) are modelled as oracles returning
`Except String α` (an exception message, or the parsed value), exactly at the
granularity at which the Python code awaits them.  Python `float` scores are
modelled as `ℚ`: every constant appearing in the modelled code (30.0, 7.0,
0.5-free decimals, …) is exactly representable, and only order comparisons
and exact additions are performed on them.
-/

namespace RepoMan

/-! ### Data model: `repoman/core/state.py` (fields read by the modelled code) -/

/-- `RepoSnapshot` (core/state.py), restricted to the fields read by
`compute_initial_health_score`: the six hygiene flags and `total_files`. -/
structure RepoSnapshot where
  has_readme : Bool := false
  has_tests : Bool := false
  has_ci : Bool := false
  has_dockerfile : Bool := false
  has_license : Bool := false
  has_env_example : Bool := false
  total_files : Nat := 0

/-- `AgentVote` (core/state.py). -/
structure AgentVote where
  agent_name : String
  score : ℚ
  approve : Bool
  blocking_concerns : List String := []
  minor_concerns : List String := []
  rationale : String := ""
  deriving DecidableEq

/-- `DebateMessage` (core/state.py): agent, role, content, and the optional
agreement level.  The wall-clock `timestamp`, `references` and
`blocking_concerns` fields are not read by any modelled code and are omitted. -/
structure DebateMessage where
  agent : String
  role : String
  content : String
  agreement_level : Option ℚ := none
  deriving DecidableEq

/-- `ConsensusResult` (core/state.py).  The `votes` dict is modelled as an
association list in Python dict insertion order. -/
structure ConsensusResult (P : Type) where
  achieved : Bool
  rounds : Nat
  unified_plan : P
  votes : List (String × AgentVote)
  transcript : List DebateMessage

/-! ### Health scoring: `repoman/analysis/health.py` -/

/-- `compute_initial_health_score` (analysis/health.py, lines 9-39): base 30,
bonuses for the six hygiene flags, a +5 bonus for a file count in [5, 500],
a −10 penalty above 1000 files, clamped to [0, 100]. -/
def compute_initial_health_score (s : RepoSnapshot) : ℚ :=
  let score : ℚ := 30
  let score := if s.has_readme then score + 10 else score
  let score := if s.has_tests then score + 15 else score
  let score := if s.has_ci then score + 10 else score
  let score := if s.has_dockerfile then score + 5 else score
  let score := if s.has_license then score + 5 else score
  let score := if s.has_env_example then score + 5 else score
  let score := if 5 ≤ s.total_files ∧ s.total_files ≤ 500 then score + 5 else score
  let score := if 1000 < s.total_files then score - 10 else score
  min (max score 0) 100

/-! ### File operations: `repoman/execution/file_ops.py`

Paths are modelled as lists of segments.  `pathlib.PurePath` parsing drops
empty segments and `.` but keeps `..`; joining with an absolute right operand
discards the left operand. -/

/-- Split a character list on the separator character. -/
def splitSegsAux (sep : Char) : List Char → List Char → List (List Char)
  | [], acc => [acc.reverse]
  | c :: rest, acc =>
    if c = sep then acc.reverse :: splitSegsAux sep rest []
    else splitSegsAux sep rest (c :: acc)

/-- Segments of a path string, as `pathlib` parses them: split on `/`,
dropping empty segments and `.`; `..` segments are kept verbatim. -/
def pathSegments (p : String) : List String :=
  ((splitSegsAux '/' p.toList []).map (fun cs => String.mk cs)).filter
    (fun seg => seg != "" && seg != ".")

/-- Whether a path string is absolute (`pathlib`: leading separator). -/
def isAbsolutePath (p : String) : Bool :=
  match p.toList with
  | [] => false
  | c :: _ => c == '/'

/-- `FileOps` (execution/file_ops.py): holds the repository root, given here
as the segment list of an absolute path. -/
structure FileOps where
  root : List String

/-- `FileOps._resolve` (file_ops.py, lines 24-33): `self._root / relative_path`.
`pathlib` join concatenates segments; an absolute `relative_path` replaces the
root entirely.  The source performs no check of any kind on the segments. -/
def FileOps.resolve (ops : FileOps) (relative_path : String) : List String :=
  if isAbsolutePath relative_path then pathSegments relative_path
  else ops.root ++ pathSegments relative_path

/-- Effect of a file operation on the file system, recorded at the path the
operating system will act on. -/
inductive FsEffect
  | write (target : List String) (content : String)
  | delete (target : List String)
  | read (target : List String)
  deriving DecidableEq

/-- `FileOps.create_file` (file_ops.py, lines 35-46): resolve the path and
write the content there (parent directories are created as needed).  There is
no rejection branch in the source. -/
def FileOps.create_file (ops : FileOps) (path : String) (content : String) : FsEffect :=
  .write (ops.resolve path) content

/-- `FileOps.modify_file` (file_ops.py, lines 48-59): identical write. -/
def FileOps.modify_file (ops : FileOps) (path : String) (content : String) : FsEffect :=
  .write (ops.resolve path) content

/-- `FileOps.delete_file` (file_ops.py, lines 61-70): unlink if present. -/
def FileOps.delete_file (ops : FileOps) (path : String) : FsEffect :=
  .delete (ops.resolve path)

/-- How the operating system resolves `..` segments when the file is actually
opened: each `..` removes the preceding segment (at the root it stays put). -/
def normalizePath (segs : List String) : List String :=
  segs.foldl (fun acc seg => if seg = ".." then acc.dropLast else acc ++ [seg]) []

/-- `target` lies inside `root` after `..` resolution. -/
def underRoot (root target : List String) : Bool :=
  (normalizePath target).take (normalizePath root).length == normalizePath root

/-! ### Builder agent: `repoman/agents/builder.py` -/

/-- `EXECUTION_ORDER` (constants.py, lines 21-35). -/
def EXECUTION_ORDER : List String :=
  ["fix_critical_bugs", "fix_security_vulnerabilities", "restructure_files",
   "update_dependencies", "refactor_code", "add_error_handling",
   "add_type_hints", "write_tests", "generate_documentation", "setup_cicd",
   "setup_docker", "add_env_management", "final_lint_format"]

/-- `FileChange` (core/state.py): `content` is `str | None = None`. -/
structure FileChange where
  path : String
  action : String := ""
  content : Option String := none
  summary : String := ""
  deriving DecidableEq

/-- `ChangeSet` (core/state.py). -/
structure ChangeSet where
  step_name : String
  files_created : List FileChange := []
  files_modified : List FileChange := []
  files_deleted : List String := []
  summary : String := ""
  deriving DecidableEq

/-- The payload parsed from one backend reply in `execute_plan` /
`apply_fixes`: the `data.get(...)` fields used to build a `ChangeSet`.
`summary` is optional because the source supplies a step-specific default. -/
structure ChangeSetData where
  files_created : List FileChange := []
  files_modified : List FileChange := []
  files_deleted : List String := []
  summary : Option String := none
  deriving DecidableEq

/-- The `ChangeSet(...)` construction in builder.py (lines 255-261 and
307-313): the step name is fixed by the caller, the summary falls back to a
caller-supplied default. -/
def mkChangeSet (step_name defaultSummary : String) (d : ChangeSetData) : ChangeSet :=
  { step_name := step_name
    files_created := d.files_created
    files_modified := d.files_modified
    files_deleted := d.files_deleted
    summary := d.summary.getD defaultSummary }

/-- A call made through `FileOps` by the builder, with the relative path as
the source passes it. -/
inductive FsOp
  | create (path content : String)
  | modify (path content : String)
  | delete (path : String)
  deriving DecidableEq

/-- Python truthiness of `fc.content` (`if fc.content:`): neither `None` nor
the empty string. -/
def contentTruthy : Option String → Bool
  | none => false
  | some c => c != ""

/-- The `files_created` application loop (builder.py, lines 263-265): only
truthy contents are written. -/
def applyCreates (l : List FileChange) : List FsOp :=
  l.filterMap fun fc =>
    match fc.content with
    | none => none
    | some c => if c = "" then none else some (.create fc.path c)

/-- The `files_modified` application loop (builder.py, lines 266-268). -/
def applyModifies (l : List FileChange) : List FsOp :=
  l.filterMap fun fc =>
    match fc.content with
    | none => none
    | some c => if c = "" then none else some (.modify fc.path c)

/-- The `# Apply changes` block of `execute_plan` (builder.py, lines 262-270):
creates, then modifies, then every `files_deleted` path. -/
def applyChangeSet (cs : ChangeSet) : List FsOp :=
  applyCreates cs.files_created ++ applyModifies cs.files_modified
    ++ cs.files_deleted.map .delete

/-- The `for step_name in EXECUTION_ORDER` loop of `BuilderAgent.execute_plan`
(builder.py, lines 233-278).  `outcome` models the combined backend call,
JSON parse and `ChangeSet` field construction for one step (the body of the
`try`, lines 254-261); `steps` is the key set of `unified_plan["steps"]`. -/
def executePlanGo (outcome : String → Except String ChangeSetData)
    (steps : List String) : List String → List ChangeSet × List FsOp
  | [] => ([], [])
  | step_name :: rest =>
    let tail := executePlanGo outcome steps rest
    if steps.contains step_name then
      match outcome step_name with
      | .ok d =>
        let cs := mkChangeSet step_name ("Completed " ++ step_name) d
        (cs :: tail.1, applyChangeSet cs ++ tail.2)
      | .error e =>
        ({ step_name := step_name, summary := "Step failed: " ++ e } :: tail.1, tail.2)
    else tail

/-- `BuilderAgent.execute_plan` (builder.py, lines 212-280): the change sets
returned and the `FileOps` calls performed, in order. -/
def execute_plan (outcome : String → Except String ChangeSetData)
    (steps : List String) : List ChangeSet × List FsOp :=
  executePlanGo outcome steps EXECUTION_ORDER

/-- `BuilderAgent.apply_fixes` (builder.py, lines 282-322): one backend call;
on success the parsed `ChangeSet` is returned and only `files_created` /
`files_modified` entries with truthy content are written — the source has no
loop over `files_deleted`. -/
def apply_fixes (outcome : Except String ChangeSetData) : List ChangeSet × List FsOp :=
  match outcome with
  | .ok d =>
    let cs := mkChangeSet "apply_fixes" "Applied reviewer fixes" d
    ([cs], applyCreates cs.files_created ++ applyModifies cs.files_modified)
  | .error e =>
    ([{ step_name := "apply_fixes", summary := "Fix failed: " ++ e }], [])

/-- The parsed JSON reply used by `BuilderAgent.vote_on_plan` (builder.py,
lines 176-183): each field is `data.get(key, default)`, so absent keys are
`none`. -/
structure VoteData where
  score : Option ℚ := none
  approve : Option Bool := none
  blocking_concerns : Option (List String) := none
  minor_concerns : Option (List String) := none
  rationale : Option String := none

/-- `BuilderAgent.vote_on_plan` (builder.py, lines 167-191): score defaults
to 5.0; `approve` defaults to `score >= 7.0` (a hard-coded constant) only
when the reply has no `approve` key. -/
def vote_on_plan (name : String) (data : VoteData) : AgentVote :=
  let score := data.score.getD 5
  { agent_name := name
    score := score
    approve := data.approve.getD (decide (7 ≤ score))
    blocking_concerns := data.blocking_concerns.getD []
    minor_concerns := data.minor_concerns.getD []
    rationale := data.rationale.getD "" }

/-! ### Model router: `repoman/models/router.py` -/

/-- The two provider adapter classes (models/anthropic_provider.py,
models/openai_provider.py). -/
inductive ProviderKind
  | anthropic
  | openai
  deriving DecidableEq

/-- A constructed provider instance.  `iid` models Python object identity:
`_setup_providers` constructs a fresh instance at every call site, and the
classes define no `__eq__`, so `in` compares instances, not configurations. -/
structure Provider where
  kind : ProviderKind
  api_key : String
  model : String
  iid : Nat
  deriving DecidableEq

/-- The `Settings` fields read by `ModelRouter` (config.py, lines 17-23). -/
structure RouterSettings where
  anthropic_api_key : String := ""
  openai_api_key : String := ""
  orchestrator_model : String := "claude-sonnet-4-20250514"
  architect_model : String := "claude-sonnet-4-20250514"
  auditor_model : String := "gpt-4o"
  builder_model : String := "claude-sonnet-4-20250514"

/-- `ModelRouter._setup_providers` (router.py, lines 29-41): role map and
fallback chain.  Instance ids record construction order; note that the
fallback-chain entries are fresh instances distinct from the role map's. -/
def setup_providers (cfg : RouterSettings) : List (String × Provider) × List Provider :=
  let anth := cfg.anthropic_api_key != ""
  let oai := cfg.openai_api_key != ""
  let providers :=
    (if anth then
      [("orchestrator", ⟨.anthropic, cfg.anthropic_api_key, cfg.orchestrator_model, 0⟩),
       ("architect", ⟨.anthropic, cfg.anthropic_api_key, cfg.architect_model, 1⟩),
       ("builder", ⟨.anthropic, cfg.anthropic_api_key, cfg.builder_model, 2⟩)]
     else [])
    ++ (if oai then [("auditor", ⟨.openai, cfg.openai_api_key, cfg.auditor_model, 4⟩)] else [])
  let chain :=
    (if anth then [⟨.anthropic, cfg.anthropic_api_key, cfg.orchestrator_model, 3⟩] else [])
    ++ (if oai then [⟨.openai, cfg.openai_api_key, cfg.auditor_model, 5⟩] else [])
  (providers, chain)

/-- `providers_to_try.extend(p for p in self._fallback_chain if p not in
providers_to_try)` (router.py, lines 70-72): each chain entry is appended
unless an equal element is already in the accumulated list. -/
def addDistinct (acc : List Provider) : List Provider → List Provider
  | [] => acc
  | p :: rest => if acc.contains p then addDistinct acc rest else addDistinct (acc ++ [p]) rest

/-- The attempt list built by `ModelRouter.complete` (router.py, lines 67-72):
the role's primary provider if registered, then the fallback chain filtered
by membership. -/
def providersToTry (cfg : RouterSettings) (role : String) : List Provider :=
  let sp := setup_providers cfg
  let start := match sp.1.lookup role with
    | some p => [p]
    | none => []
  addDistinct start sp.2

/-- `LLMResponse` (models/base.py), restricted to the fields the router
returns unchanged. -/
structure LLMResponse where
  content : String
  model : String
  deriving DecidableEq

/-- The `for provider in providers_to_try` loop of `ModelRouter.complete`
(router.py, lines 74-86): first success wins; otherwise a `RuntimeError` is
raised `from last_exc`, modelled as `.error` carrying the last attempt's
exception (`none` when no provider was attempted at all). -/
def completeGo (attempt : Provider → Except String LLMResponse) :
    List Provider → Option String → Except (Option String) LLMResponse
  | [], last => .error last
  | p :: rest, _ =>
    match attempt p with
    | .ok r => .ok r
    | .error e => completeGo attempt rest (some e)

/-- `ModelRouter.complete` (router.py, lines 43-86), with the provider call
modelled by the `attempt` oracle. -/
def ModelRouter.complete (cfg : RouterSettings) (role : String)
    (attempt : Provider → Except String LLMResponse) : Except (Option String) LLMResponse :=
  completeGo attempt (providersToTry cfg role) none

/-- The logical backend a provider instance talks to: adapter class plus
model identifier. -/
def Provider.backend (p : Provider) : ProviderKind × String :=
  (p.kind, p.model)

/-! ### Consensus engine: `repoman/consensus/engine.py`

The engine is polymorphic in the plan type `P` and critique type `C` (in the
source both are open-schema `dict`s).  Each agent call site that awaits a
backend is an oracle returning `Except String α`; because the concurrent
fan-outs (`asyncio.gather`) snapshot their arguments before any result is
stored, each fan-out is modelled by a fold whose calls read the pre-phase
state.  Python dicts keyed by agent name are association lists with
dict insertion semantics (`dictInsert`). -/

/-- Python `d[k] = v`: overwrite in place if the key exists, else append. -/
def dictInsert (k : String) (v : α) : List (String × α) → List (String × α)
  | [] => [(k, v)]
  | kv :: rest => if kv.1 = k then (k, v) :: rest else kv :: dictInsert k v rest

/-- A debate participant (engine.py calls on `BaseAgent`): each method is the
oracle for the corresponding awaited backend call, taking the arguments the
source passes. -/
structure DebateAgent (P C : Type) where
  name : String
  propose : Except String P
  critique : List (String × P) → Except String C
  revise : P → List (String × C) → Except String P
  vote : P → Except String AgentVote

/-- The mediating orchestrator agent (engine.py calls on
`OrchestratorAgent`). -/
structure Mediator (P C : Type) where
  name : String
  synthesize : List (String × P) → Except String P
  final_decision : List (String × P) → List (String × C) →
    List (String × AgentVote) → Except String P

/-- Everything `ConsensusEngine.run` reads: the `Settings` fields
(config.py, lines 25-26), empty-dict values for `P` and `C`, the `str(...)`
renderings used for transcript contents, the participants, and the job id. -/
structure EngineEnv (P C : Type) where
  max_consensus_rounds : Nat := 5
  consensus_threshold : ℚ := 7
  emptyPlan : P
  emptyCritique : C
  planStr : P → String
  critiqueStr : C → String
  voteStr : AgentVote → String
  agents : List (DebateAgent P C)
  orchestrator : Mediator P C
  job_id : Option String := none

/-- The engine's mutable locals: `plans`, the current round's `critiques` and
`votes`, `unified_plan`, the transcript, and the emitted `debate_message`
events.  An event records the job id its payload carries (`none` when the
payload has no `job_id` key). -/
structure EngineState (P C : Type) where
  plans : List (String × P)
  critiques : List (String × C)
  unified : P
  votes : List (String × AgentVote)
  transcript : List DebateMessage
  events : List (Option String × DebateMessage)

/-- Append a message to the transcript and emit it through `emit_message`
(engine.py, lines 52-56): the payload carries the job id iff one was
supplied. -/
def pushMessage (env : EngineEnv P C) (s : EngineState P C) (msg : DebateMessage) :
    EngineState P C :=
  { s with transcript := s.transcript ++ [msg],
           events := s.events ++ [(env.job_id, msg)] }

/-- Phase 1 (engine.py, lines 58-78): all agents propose; a failed proposal
records the empty plan and no message; a successful one records the plan and
a PROPOSAL message. -/
def proposalPhase (env : EngineEnv P C) : EngineState P C :=
  env.agents.foldl
    (fun s a =>
      match a.propose with
      | .error _ => { s with plans := dictInsert a.name env.emptyPlan s.plans }
      | .ok p =>
        pushMessage env { s with plans := dictInsert a.name p s.plans }
          ⟨a.name, "PROPOSAL", env.planStr p, none⟩)
    ⟨[], [], env.emptyPlan, [], [], []⟩

/-- Phase 2a (engine.py, lines 86-108): each agent critiques the others'
plans (the plans dict is not modified during this fan-out); failures record
an empty critique and no message.  The round starts from a fresh `critiques`
dict. -/
def critiquePhase (env : EngineEnv P C) (s : EngineState P C) : EngineState P C :=
  env.agents.foldl
    (fun t a =>
      match a.critique (t.plans.filter (fun kv => kv.1 != a.name)) with
      | .error _ => { t with critiques := dictInsert a.name env.emptyCritique t.critiques }
      | .ok c =>
        pushMessage env { t with critiques := dictInsert a.name c t.critiques }
          ⟨a.name, "CRITIQUE", env.critiqueStr c, none⟩)
    { s with critiques := [] }

/-- Phase 2b (engine.py, lines 110-128): each agent revises its own plan
given all critiques.  The gather snapshots `plans` before any revision is
stored, so every call reads the pre-phase plans.  A failure keeps the
previous plan and records no message. -/
def revisionPhase (env : EngineEnv P C) (s : EngineState P C) : EngineState P C :=
  let plans0 := s.plans
  env.agents.foldl
    (fun t a =>
      match a.revise ((plans0.lookup a.name).getD env.emptyPlan) t.critiques with
      | .error _ => t
      | .ok r =>
        pushMessage env { t with plans := dictInsert a.name r t.plans }
          ⟨a.name, "REVISION", env.planStr r, none⟩)
    s

/-- Phase 2c (engine.py, lines 130-144): the orchestrator synthesises; on
failure the unified plan falls back to the first plan value (or the empty
plan).  A SYNTHESIS message is recorded in either case. -/
def synthesisPhase (env : EngineEnv P C) (s : EngineState P C) : EngineState P C :=
  let unified := match env.orchestrator.synthesize s.plans with
    | .ok p => p
    | .error _ => ((s.plans.head?).map Prod.snd).getD env.emptyPlan
  pushMessage env { s with unified := unified }
    ⟨env.orchestrator.name, "SYNTHESIS", env.planStr unified, none⟩

/-- The vote recorded for a failed vote call (engine.py, lines 155-160). -/
def failedVote (name e : String) : AgentVote :=
  { agent_name := name, score := 0, approve := false, rationale := "Vote failed: " ++ e }

/-- The vote stored for one agent (engine.py, lines 152-162): the returned
vote, or `failedVote` when the call raised. -/
def voteOutcome (a : DebateAgent P C) (u : P) : AgentVote :=
  match a.vote u with
  | .error e => failedVote a.name e
  | .ok v => v

/-- One iteration of the vote-recording loop (engine.py, lines 152-171):
store the vote under the agent name, then append a VOTE message built from
the vote just recorded, with `agreement_level = score / 10`. -/
def voteStep (env : EngineEnv P C) (t : EngineState P C) (a : DebateAgent P C) :
    EngineState P C :=
  let v := voteOutcome a t.unified
  pushMessage env { t with votes := dictInsert a.name v t.votes }
    ⟨a.name, "VOTE", env.voteStr v, some (v.score / 10)⟩

/-- Phase 2d (engine.py, lines 146-171): each agent votes on the unified
plan into a fresh `votes` dict; a raising vote is replaced by `failedVote`.
Every agent — also a failed one — gets a VOTE message. -/
def votePhase (env : EngineEnv P C) (s : EngineState P C) : EngineState P C :=
  env.agents.foldl (voteStep env) { s with votes := [] }

/-- One debate round (engine.py, lines 83-171): critique, revision,
synthesis, vote. -/
def doRound (env : EngineEnv P C) (s : EngineState P C) : EngineState P C :=
  votePhase env (synthesisPhase env (revisionPhase env (critiquePhase env s)))

/-- The convergence test (engine.py, line 174):
`all(v.score >= self._config.consensus_threshold for v in votes.values())`. -/
def allPass (env : EngineEnv P C) (s : EngineState P C) : Bool :=
  s.votes.all (fun kv => decide (env.consensus_threshold ≤ kv.2.score))

/-- The no-consensus epilogue (engine.py, lines 184-207): ask the mediator
for a final decision over the current plans, latest critiques and latest
votes; on failure commit the current unified plan.  The FINAL_DECISION
message is appended to the transcript, but its event is emitted through
`self._event_bus.emit` directly (line 199) — not through `emit_message` — so
its payload never carries a job id. -/
def finalDecisionStep (env : EngineEnv P C) (s : EngineState P C) :
    ConsensusResult P × List (Option String × DebateMessage) :=
  let final_plan := match env.orchestrator.final_decision s.plans s.critiques s.votes with
    | .ok p => p
    | .error _ => s.unified
  let msg : DebateMessage := ⟨env.orchestrator.name, "FINAL_DECISION", env.planStr final_plan, none⟩
  (⟨false, env.max_consensus_rounds, final_plan, s.votes, s.transcript ++ [msg]⟩,
   s.events ++ [(none, msg)])

/-- The `for round_num in range(self._config.max_consensus_rounds)` loop
(engine.py, lines 83-182) followed by the epilogue: `fuel` is the number of
rounds still allowed, `k` the number already executed; on convergence the
result carries the 1-based round number `k + 1`. -/
def consensusLoop (env : EngineEnv P C) :
    Nat → Nat → EngineState P C → ConsensusResult P × List (Option String × DebateMessage)
  | 0, _, s => finalDecisionStep env s
  | fuel + 1, k, s =>
    let s1 := doRound env s
    if allPass env s1 then
      (⟨true, k + 1, s1.unified, s1.votes, s1.transcript⟩, s1.events)
    else
      consensusLoop env fuel (k + 1) s1

/-- `ConsensusEngine.run` (engine.py, lines 33-207): the `ConsensusResult`
and the emitted `debate_message` events. -/
def ConsensusEngine.run (env : EngineEnv P C) :
    ConsensusResult P × List (Option String × DebateMessage) :=
  consensusLoop env env.max_consensus_rounds 0 (proposalPhase env)

/-- The straight-line round states: `lineState env r` is the engine state
after the proposal phase and `r` full rounds, ignoring the early-exit test.
Because the engine exits at the first passing round, the states it actually
visits coincide with `lineState` up to that round. -/
def lineState (env : EngineEnv P C) : Nat → EngineState P C
  | 0 => proposalPhase env
  | r + 1 => doRound env (lineState env r)

/-- Round `r` (1-based) ends with every recorded vote at or above the
threshold. -/
def passAt (env : EngineEnv P C) (r : Nat) : Bool :=
  allPass env (lineState env r)

/-- The first round after `k`, within `fuel` further rounds, whose vote
fan-out passes the convergence test. -/
def firstPassFrom (env : EngineEnv P C) (k : Nat) : Nat → Option Nat
  | 0 => none
  | fuel + 1 =>
    if passAt env (k + 1) then some (k + 1) else firstPassFrom env (k + 1) fuel

/-! ### Pipeline controller: `repoman/core/pipeline.py`

For the event-shape claim only the event names, the phase each event names,
and the success/failure of each awaited phase step matter; payload extras
(report counts, scores) are dropped.  Each awaited call inside the `try`
block is an oracle; an `.error` models the exception that jumps to the
`except` handler. -/

/-- A pipeline event as emitted through `emit` (pipeline.py, lines 75-79):
its name and, for phase events, the phase it names. -/
structure PhaseEvent where
  name : String
  phase : Option String := none
  deriving DecidableEq

/-- `phase_started` for a phase. -/
def ps (p : String) : PhaseEvent := ⟨"phase_started", some p⟩

/-- `phase_completed` for a phase. -/
def pc (p : String) : PhaseEvent := ⟨"phase_completed", some p⟩

/-- The dict returned by `review_changes`, restricted to the keys the
pipeline reads (pipeline.py, lines 168-169): `review.get("approved", True)`
and `review.get("rejections", [])`. -/
structure ReviewDoc where
  approved : Bool := true
  rejections : List String := []

/-- One oracle per awaited step of `Pipeline.run` (pipeline.py, lines
83-203), in program order.  `knowledge_base` is whether `self._knowledge_base`
is set (config `learning_enabled` and a successful construction). -/
structure PipelineOracles where
  ingest : Except String Unit
  architect_audit : Except String Unit
  auditor_audit : Except String Unit
  builder_audit : Except String Unit
  consensus : Except String Unit
  execute : Except String Unit
  architect_review : Except String ReviewDoc
  auditor_review : Except String ReviewDoc
  fixes : Except String Unit
  validate : Except String Unit
  knowledge_base : Bool
  learn : Except String Unit

/-- Whether an awaited call returned normally. -/
def exceptOk : Except ε α → Bool
  | .ok _ => true
  | .error _ => false

/-- The rejection accumulation loop (pipeline.py, lines 158-169): failed
reviews are skipped; non-approved reviews contribute their rejections. -/
def collectRejections (rs : List (Except String ReviewDoc)) : List String :=
  rs.foldl
    (fun acc r =>
      match r with
      | .error _ => acc
      | .ok d => if d.approved then acc else acc ++ d.rejections)
    []

/-- The body of the `try` block of `Pipeline.run` (pipeline.py, lines
83-203): the events emitted so far, and whether an exception escaped to the
handler.  Phase by phase: ingestion; audit (fatal iff all three audits
fail, checked before the completed event); consensus; execution; review
(fatal iff both reviews fail; `apply_fixes` runs only when rejections
accumulated); validation; learning (events only when a knowledge base is
configured). -/
def pipelinePhases (o : PipelineOracles) : List PhaseEvent × Except String Unit :=
  let e := [ps "ingestion"]
  match o.ingest with
  | .error err => (e, .error err)
  | .ok _ =>
  let e := e ++ [pc "ingestion", ps "audit"]
  if ([o.architect_audit, o.auditor_audit, o.builder_audit].countP exceptOk) = 0 then
    (e, .error "All audit agents failed")
  else
  let e := e ++ [pc "audit", ps "consensus"]
  match o.consensus with
  | .error err => (e, .error err)
  | .ok _ =>
  let e := e ++ [pc "consensus", ps "execution"]
  match o.execute with
  | .error err => (e, .error err)
  | .ok _ =>
  let e := e ++ [pc "execution", ps "review"]
  if ([o.architect_review, o.auditor_review].countP exceptOk) = 0 then
    (e, .error "All review agents failed")
  else
  match (if (collectRejections [o.architect_review, o.auditor_review]).isEmpty
         then Except.ok () else o.fixes) with
  | .error err => (e, .error err)
  | .ok _ =>
  let e := e ++ [pc "review", ps "validation"]
  match o.validate with
  | .error err => (e, .error err)
  | .ok _ =>
  let e := e ++ [pc "validation"]
  if o.knowledge_base then
    match o.learn with
    | .error err => (e ++ [ps "learning"], .error err)
    | .ok _ => (e ++ [ps "learning", pc "learning"], .ok ())
  else (e, .ok ())

/-- `Pipeline.run` (pipeline.py, lines 59-213): `pipeline_started`, the try
block, then on an escaped exception `pipeline_failed`, and `pipeline_completed`
in every case.  The boolean is `status == completed`. -/
def Pipeline.run (o : PipelineOracles) : List PhaseEvent × Bool :=
  match pipelinePhases o with
  | (evs, .ok _) =>
    (⟨"pipeline_started", none⟩ :: evs ++ [⟨"pipeline_completed", none⟩], true)
  | (evs, .error _) =>
    (⟨"pipeline_started", none⟩ :: evs ++
      [⟨"pipeline_failed", none⟩, ⟨"pipeline_completed", none⟩], false)

/-- The event-name sequence the spec requires of a successful run:
`pipeline_started (phase_started phase_completed){7} pipeline_completed`. -/
def sevenPhasePairNames : List String :=
  ["pipeline_started",
   "phase_started", "phase_completed", "phase_started", "phase_completed",
   "phase_started", "phase_completed", "phase_started", "phase_completed",
   "phase_started", "phase_completed", "phase_started", "phase_completed",
   "phase_started", "phase_completed",
   "pipeline_completed"]

/-- The full successful trace when a knowledge base is configured: seven
matched phase pairs in canonical phase order. -/
def fullTraceWithLearning : List PhaseEvent :=
  [⟨"pipeline_started", none⟩,
   ps "ingestion", pc "ingestion", ps "audit", pc "audit",
   ps "consensus", pc "consensus", ps "execution", pc "execution",
   ps "review", pc "review", ps "validation", pc "validation",
   ps "learning", pc "learning",
   ⟨"pipeline_completed", none⟩]

/-- The full successful trace when no knowledge base is configured: the
learning phase emits nothing, leaving six matched pairs. -/
def fullTraceWithoutLearning : List PhaseEvent :=
  [⟨"pipeline_started", none⟩,
   ps "ingestion", pc "ingestion", ps "audit", pc "audit",
   ps "consensus", pc "consensus", ps "execution", pc "execution",
   ps "review", pc "review", ps "validation", pc "validation",
   ⟨"pipeline_completed", none⟩]

/-- Oracles for a run in which every awaited call succeeds, every review
approves, and the knowledge base is configured iff `kb`. -/
def allOkOracles (kb : Bool) : PipelineOracles :=
  { ingest := .ok (), architect_audit := .ok (), auditor_audit := .ok (),
    builder_audit := .ok (), consensus := .ok (), execute := .ok (),
    architect_review := .ok {}, auditor_review := .ok {}, fixes := .ok (),
    validate := .ok (), knowledge_base := kb, learn := .ok () }

/-- Oracles identical to `allOkOracles true` except that ingestion raises. -/
def ingestFailOracles : PipelineOracles :=
  { allOkOracles true with ingest := .error "clone failed" }

/-! ### Concrete debate fixtures used by witnesses and counterexamples

Plans and critiques are `Nat`-valued (any inhabited type works; the engine
never inspects them), rendered by `toString`. -/

/-- A scripted agent that always proposes, critiques, revises and votes
successfully, voting with the given score. -/
def okAgent (name : String) (score : ℚ) : DebateAgent Nat Nat :=
  { name := name
    propose := .ok 1
    critique := fun _ => .ok 2
    revise := fun p _ => .ok p
    vote := fun _ => .ok ⟨name, score, true, [], [], "fine"⟩ }

/-- A scripted agent whose vote call always raises. -/
def voteFailAgent (name : String) : DebateAgent Nat Nat :=
  { okAgent name 0 with vote := fun _ => .error "boom" }

/-- A scripted mediator whose synthesis and final decision always succeed. -/
def okMediator : Mediator Nat Nat :=
  { name := "Orchestrator"
    synthesize := fun _ => .ok 9
    final_decision := fun _ _ _ => .ok 42 }

/-- Engine fixture: three agents all scoring 8, default settings. -/
def envAllPass : EngineEnv Nat Nat :=
  { emptyPlan := 0, emptyCritique := 0
    planStr := fun _ => "plan", critiqueStr := fun _ => "critique"
    voteStr := fun v => v.rationale
    agents := [okAgent "Architect" 8, okAgent "Auditor" 8, okAgent "Builder" 8]
    orchestrator := okMediator }

/-- Engine fixture: two rounds allowed, one reviewer stuck at score 5. -/
def envNeverPass : EngineEnv Nat Nat :=
  { envAllPass with
      max_consensus_rounds := 2
      agents := [okAgent "Architect" 8, okAgent "Auditor" 5, okAgent "Builder" 8] }

/-- Engine fixture for the final-decision event: a job id is supplied, one
round, a single reviewer scoring 5, so the run ends in a final decision. -/
def envFinalWithJob : EngineEnv Nat Nat :=
  { envAllPass with
      max_consensus_rounds := 1
      agents := [okAgent "Builder" 5]
      job_id := some "job-1" }

/-- Engine fixture for the vote fan-out: one reviewer raises, one succeeds. -/
def envMixedVotes : EngineEnv Nat Nat :=
  { envAllPass with agents := [voteFailAgent "Architect", okAgent "Builder" 8] }

/-! ### Concrete builder fixtures used by witnesses and counterexamples -/

/-- A file-operation call that is a write (create or modify) only with
non-empty content; deletions are unconstrained. -/
def writeNonempty : FsOp → Prop
  | .create _ c => c ≠ ""
  | .modify _ c => c ≠ ""
  | .delete _ => True

/-- Step oracle: `write_tests` fails to parse, everything else succeeds
with an empty change set. -/
def outW : String → Except String ChangeSetData :=
  fun s => if s = "write_tests" then .error "parse error" else .ok {}

/-- Plan step keys for the C5 witness, including one key outside
`EXECUTION_ORDER`. -/
def stepsW : List String :=
  ["write_tests", "setup_cicd", "unknown_step"]

/-- The failure change set recorded for the `write_tests` step under
`outW`. -/
def csW : ChangeSet :=
  { step_name := "write_tests", summary := "Step failed: parse error" }

/-- A change-set payload with one empty-content creation, one real
modification, and one deletion. -/
def dataD : ChangeSetData :=
  { files_created := [{ path := "empty.txt", action := "create", content := some "" }],
    files_modified := [{ path := "mod.txt", action := "modify", content := some "new body" }],
    files_deleted := ["old.txt"],
    summary := some "did things" }

/-- Step oracle for the C10 witness: only `refactor_code` is scripted. -/
def outD : String → Except String ChangeSetData :=
  fun s => if s = "refactor_code" then .ok dataD else .error "unused"

/-- Plan step keys for the C10 witness. -/
def stepsD : List String := ["refactor_code"]

/-- The change set built from `dataD` for the `refactor_code` step. -/
def csD : ChangeSet := mkChangeSet "refactor_code" "Completed refactor_code" dataD

/-! ## Theorems -/

/-! ### C9 — initial health score -/

/-- Claim C9 counterexample: a snapshot with all six hygiene flags false but
50 files scores 35, not 30 — the +5 file-count bonus applies independently
of the hygiene flags, so the claimed unconditional value 30 is false. -/
theorem C9_counterexample :
    compute_initial_health_score { total_files := 50 } = 35 ∧ (35 : ℚ) ≠ 30 := by
  constructor
  · norm_num [compute_initial_health_score]
  · norm_num

/-- Claim C9 (amended): with a file count outside the bonus range [5, 500]
and not above 1000, an all-false snapshot scores exactly 30 and adding
`has_readme` alone yields exactly 40; a fully hygienic snapshot with 50
files scores at least 75; and every snapshot scores within [0, 100]. -/
theorem C9_initial_health_score :
    (∀ s : RepoSnapshot, s.has_readme = false → s.has_tests = false → s.has_ci = false →
       s.has_dockerfile = false → s.has_license = false → s.has_env_example = false →
       ¬(5 ≤ s.total_files ∧ s.total_files ≤ 500) → s.total_files ≤ 1000 →
       compute_initial_health_score s = 30)
  ∧ (∀ s : RepoSnapshot, s.has_readme = true → s.has_tests = false → s.has_ci = false →
       s.has_dockerfile = false → s.has_license = false → s.has_env_example = false →
       ¬(5 ≤ s.total_files ∧ s.total_files ≤ 500) → s.total_files ≤ 1000 →
       compute_initial_health_score s = 40)
  ∧ (∀ s : RepoSnapshot, s.has_readme = true → s.has_tests = true → s.has_ci = true →
       s.has_dockerfile = true → s.has_license = true → s.has_env_example = true →
       s.total_files = 50 → 75 ≤ compute_initial_health_score s)
  ∧ (∀ s : RepoSnapshot,
       0 ≤ compute_initial_health_score s ∧ compute_initial_health_score s ≤ 100) := by
  refine ⟨?_, ?_, ?_, ?_⟩
  · intro s h1 h2 h3 h4 h5 h6 hfc hbig
    have hn : ¬ (1000 < s.total_files) := by omega
    norm_num [compute_initial_health_score, h1, h2, h3, h4, h5, h6, hfc, hn]
  · intro s h1 h2 h3 h4 h5 h6 hfc hbig
    have hn : ¬ (1000 < s.total_files) := by omega
    norm_num [compute_initial_health_score, h1, h2, h3, h4, h5, h6, hfc, hn]
  · intro s h1 h2 h3 h4 h5 h6 hfc
    norm_num [compute_initial_health_score, h1, h2, h3, h4, h5, h6, hfc]
  · intro s
    unfold compute_initial_health_score
    exact ⟨le_min (le_max_right _ _) (by norm_num), min_le_right _ _⟩

/-- Witness for C9: the amended bounds evaluated on concrete snapshots. -/
theorem C9_witness :
    compute_initial_health_score {} = 30
  ∧ compute_initial_health_score { has_readme := true } = 40
  ∧ 75 ≤ compute_initial_health_score
      { has_readme := true, has_tests := true, has_ci := true, has_dockerfile := true,
        has_license := true, has_env_example := true, total_files := 50 } :=
  ⟨C9_initial_health_score.1 {} rfl rfl rfl rfl rfl rfl (by decide) (by decide),
   C9_initial_health_score.2.1 { has_readme := true } rfl rfl rfl rfl rfl rfl
     (by decide) (by decide),
   C9_initial_health_score.2.2.1 _ rfl rfl rfl rfl rfl rfl rfl⟩

/-! ### C1 — path containment in FileOps -/

/-- Claim C1 is violated by the source: `_resolve` performs no check at all,
so `../escape.txt` resolves to a target that, once the operating system
collapses the `..` segment, lies outside the repository root, and
`create_file` writes there without any rejection. -/
theorem C1_path_escape :
    underRoot ["work", "repo"] (FileOps.resolve ⟨["work", "repo"]⟩ "../escape.txt") = false
  ∧ FileOps.create_file ⟨["work", "repo"]⟩ "../escape.txt" "payload"
      = .write ["work", "repo", "..", "escape.txt"] "payload"
  ∧ normalizePath (FileOps.resolve ⟨["work", "repo"]⟩ "../escape.txt")
      = ["work", "escape.txt"] := by
  refine ⟨by decide, by decide, by decide⟩

/-! ### C6 — router fallback deduplication -/

/-- Claim C6 is violated by the source: with both API keys configured, the
try list for the `orchestrator` role contains the Anthropic orchestrator
backend twice — the primary instance and the separately constructed
fallback-chain instance — because `p not in providers_to_try` compares
object identity and never matches.  The second conjunct shows the duplicate
is really attempted: when only the primary instance (iid 0) fails, the
router succeeds on the identical backend instead of moving to OpenAI. -/
theorem C6_duplicate_backend :
    ((providersToTry { anthropic_api_key := "a", openai_api_key := "o" } "orchestrator").map
        Provider.backend
      = [(.anthropic, "claude-sonnet-4-20250514"), (.anthropic, "claude-sonnet-4-20250514"),
         (.openai, "gpt-4o")])
  ∧ ModelRouter.complete { anthropic_api_key := "a", openai_api_key := "o" } "orchestrator"
      (fun p => if p.iid = 0 then .error "rate limited" else .ok ⟨"done", p.model⟩)
      = .ok ⟨"done", "claude-sonnet-4-20250514"⟩ := by
  refine ⟨by decide, rfl⟩

/-! ### C8 — vote approval semantics (counterexample) -/

/-- Claim C8 counterexample: `vote_on_plan` takes an LLM-supplied `approve`
field as-is, so a reply with `approve = true` and `score = 2` yields an
approving vote whose score is far below the default threshold 7.0,
contradicting the claimed equivalence. -/
theorem C8_counterexample :
    (vote_on_plan "Builder" { score := some 2, approve := some true }).approve = true
  ∧ (vote_on_plan "Builder" { score := some 2, approve := some true }).score < 7 := by
  refine ⟨by decide, by decide⟩

/-! ### C10 — file application of change sets (counterexample) -/

/-- Claim C10 counterexample: `apply_fixes` records `files_deleted` entries
in the returned change set but performs no deletion at all — the source has
no loop over `files_deleted` (builder.py, lines 314-319). -/
theorem C10_counterexample :
    (apply_fixes (.ok { files_deleted := ["junk.txt"] })).1
      = [{ step_name := "apply_fixes", files_deleted := ["junk.txt"],
           summary := "Applied reviewer fixes" }]
  ∧ (apply_fixes (.ok { files_deleted := ["junk.txt"] })).2 = [] := by
  refine ⟨by decide, by decide⟩

/-! ### C5 — execution order (helper lemma and claim) -/

/-- Characterisation of the `execute_plan` loop over an arbitrary order
list: one change set per contained step in list order, successful steps
recorded via `mkChangeSet`, failed steps via the failure summary. -/
theorem executePlanGo_spec (outcome : String → Except String ChangeSetData)
    (steps : List String) (l : List String) :
    ((executePlanGo outcome steps l).1.map ChangeSet.step_name
        = l.filter (fun s => steps.contains s))
  ∧ (∀ cs ∈ (executePlanGo outcome steps l).1,
       match outcome cs.step_name with
       | .ok d => cs = mkChangeSet cs.step_name ("Completed " ++ cs.step_name) d
       | .error e => cs = { step_name := cs.step_name, summary := "Step failed: " ++ e }) := by
  induction l with
  | nil => exact ⟨rfl, by intro cs h; cases h⟩
  | cons s rest ih =>
    by_cases hs : steps.contains s
    · cases hout : outcome s with
      | ok d =>
        refine ⟨?_, ?_⟩
        · simp only [executePlanGo, hs, if_true, hout, List.map_cons, List.filter_cons,
            ih.1, mkChangeSet]
        · intro cs hcs
          simp only [executePlanGo, hs, if_true, hout, List.mem_cons] at hcs
          rcases hcs with hcs | hcs
          · subst hcs
            simp only [mkChangeSet, hout]
          · exact ih.2 cs hcs
      | error e =>
        refine ⟨?_, ?_⟩
        · simp only [executePlanGo, hs, if_true, hout, List.map_cons, List.filter_cons, ih.1]
        · intro cs hcs
          simp only [executePlanGo, hs, if_true, hout, List.mem_cons] at hcs
          rcases hcs with hcs | hcs
          · subst hcs
            simp only [hout]
          · exact ih.2 cs hcs
    · have hfalse : steps.contains s = false := by
        simpa using hs
      refine ⟨?_, ?_⟩
      · rw [List.filter_cons, hfalse]
        simp only [executePlanGo, hs, if_false, ih.1, Bool.false_eq_true]
      · intro cs hcs
        simp only [executePlanGo, hs, if_false] at hcs
        exact ih.2 cs hcs

/-- Claim C5: `execute_plan` attempts exactly the plan keys that occur in
`EXECUTION_ORDER`, in canonical order, one change set each; a failing step
contributes a change set whose summary notes the failure while the
remaining steps still run; and the spec fixture
`\x7bwrite_tests, fix_security_vulnerabilities, setup_cicd\x7d` comes out in the
canonical order. -/
theorem C5_execution_order (outcome : String → Except String ChangeSetData)
    (steps : List String) :
    ((execute_plan outcome steps).1.map ChangeSet.step_name
        = EXECUTION_ORDER.filter (fun s => steps.contains s))
  ∧ (∀ cs ∈ (execute_plan outcome steps).1, ∀ e, outcome cs.step_name = .error e →
       cs.summary = "Step failed: " ++ e)
  ∧ (∀ f : String → Except String ChangeSetData,
       (execute_plan f ["write_tests", "fix_security_vulnerabilities", "setup_cicd"]).1.map
           ChangeSet.step_name
         = ["fix_security_vulnerabilities", "write_tests", "setup_cicd"]) := by
  refine ⟨(executePlanGo_spec outcome steps EXECUTION_ORDER).1, ?_, ?_⟩
  · intro cs hcs e he
    have h := (executePlanGo_spec outcome steps EXECUTION_ORDER).2 cs hcs
    rw [he] at h
    rw [h]
  · intro f
    show (executePlanGo f _ EXECUTION_ORDER).1.map ChangeSet.step_name = _
    rw [(executePlanGo_spec f _ EXECUTION_ORDER).1]
    decide

/-- Witness for C5: under `outW` / `stepsW` the attempted steps are exactly
`write_tests` then `setup_cicd` (the unknown key is never attempted), and
the failing `write_tests` step records the failure summary. -/
theorem C5_witness :
    ((execute_plan outW stepsW).1.map ChangeSet.step_name = ["write_tests", "setup_cicd"])
  ∧ csW.summary = "Step failed: parse error" := by
  refine ⟨?_, ?_⟩
  · rw [(C5_execution_order outW stepsW).1]
    decide
  · exact (C5_execution_order outW stepsW).2.1 csW (by decide) "parse error" rfl

/-! ### C10 — which changes touch the file system (helpers and amended claim) -/

/-- Every operation produced by the `files_created` loop is a creation with
non-empty content. -/
theorem applyCreates_spec (l : List FileChange) :
    ∀ op ∈ applyCreates l, writeNonempty op ∧ ∀ p, op ≠ FsOp.delete p := by
  intro op hop
  simp only [applyCreates, List.mem_filterMap] at hop
  obtain ⟨fc, _, hfc⟩ := hop
  split at hfc
  · cases hfc
  · rename_i c
    split at hfc
    · cases hfc
    · rename_i hce
      cases hfc
      exact ⟨hce, fun p h => by cases h⟩

/-- Every operation produced by the `files_modified` loop is a modification
with non-empty content. -/
theorem applyModifies_spec (l : List FileChange) :
    ∀ op ∈ applyModifies l, writeNonempty op ∧ ∀ p, op ≠ FsOp.delete p := by
  intro op hop
  simp only [applyModifies, List.mem_filterMap] at hop
  obtain ⟨fc, _, hfc⟩ := hop
  split at hfc
  · cases hfc
  · rename_i c
    split at hfc
    · cases hfc
    · rename_i hce
      cases hfc
      exact ⟨hce, fun p h => by cases h⟩

/-- Every operation applied for one change set has non-empty content when it
is a write. -/
theorem applyChangeSet_writeNonempty (cs : ChangeSet) :
    ∀ op ∈ applyChangeSet cs, writeNonempty op := by
  intro op hop
  simp only [applyChangeSet, List.mem_append] at hop
  rcases hop with (h | h) | h
  · exact (applyCreates_spec _ op h).1
  · exact (applyModifies_spec _ op h).1
  · simp only [List.mem_map] at h
    obtain ⟨p, _, hp⟩ := h
    rw [← hp]
    trivial

/-- Claim C10 (amended): in both `execute_plan` and `apply_fixes` a listed
file change with `None` or empty content is recorded but causes no write —
every write carries non-empty content; in `execute_plan` every
`files_deleted` path of every returned change set is passed to delete; but
in `apply_fixes` no deletion is ever performed, the `files_deleted` entries
being recorded in the returned change set only. -/
theorem C10_changeset_application (outcome : String → Except String ChangeSetData)
    (steps : List String) (fix : Except String ChangeSetData) :
    (∀ op ∈ (execute_plan outcome steps).2, writeNonempty op)
  ∧ (∀ cs ∈ (execute_plan outcome steps).1, ∀ p ∈ cs.files_deleted,
       FsOp.delete p ∈ (execute_plan outcome steps).2)
  ∧ (∀ op ∈ (apply_fixes fix).2, writeNonempty op ∧ ∀ p, op ≠ FsOp.delete p)
  ∧ (∀ d, fix = .ok d →
       (apply_fixes fix).1 = [mkChangeSet "apply_fixes" "Applied reviewer fixes" d]) := by
  refine ⟨?_, ?_, ?_, ?_⟩
  · show ∀ op ∈ (executePlanGo outcome steps EXECUTION_ORDER).2, writeNonempty op
    induction EXECUTION_ORDER with
    | nil => intro op h; cases h
    | cons s rest ih =>
      intro op hop
      by_cases hs : steps.contains s
      · cases hout : outcome s with
        | ok d =>
          simp only [executePlanGo, hs, if_true, hout, List.mem_append] at hop
          rcases hop with h | h
          · exact applyChangeSet_writeNonempty _ op h
          · exact ih op h
        | error e =>
          simp only [executePlanGo, hs, if_true, hout] at hop
          exact ih op hop
      · simp only [executePlanGo, hs, if_false] at hop
        exact ih op hop
  · show ∀ cs ∈ (executePlanGo outcome steps EXECUTION_ORDER).1, ∀ p ∈ cs.files_deleted,
      FsOp.delete p ∈ (executePlanGo outcome steps EXECUTION_ORDER).2
    induction EXECUTION_ORDER with
    | nil => intro cs h; cases h
    | cons s rest ih =>
      intro cs hcs p hp
      by_cases hs : steps.contains s
      · cases hout : outcome s with
        | ok d =>
          simp only [executePlanGo, hs, if_true, hout, List.mem_cons, List.mem_append]
          simp only [executePlanGo, hs, if_true, hout, List.mem_cons] at hcs
          rcases hcs with hcs | hcs
          · left
            subst hcs
            simp only [applyChangeSet, List.mem_append]
            right
            exact List.mem_map_of_mem _ hp
          · right
            exact ih cs hcs p hp
        | error e =>
          simp only [executePlanGo, hs, if_true, hout, List.mem_cons] at hcs
          simp only [executePlanGo, hs, if_true, hout]
          rcases hcs with hcs | hcs
          · subst hcs
            cases hp
          · exact ih cs hcs p hp
      · simp only [executePlanGo, hs, if_false] at hcs ⊢
        exact ih cs hcs p hp
  · intro op hop
    cases fix with
    | ok d =>
      simp only [apply_fixes, List.mem_append] at hop
      rcases hop with h | h
      · exact applyCreates_spec _ op h
      · exact applyModifies_spec _ op h
    | error e => cases hop
  · intro d hd
    subst hd
    rfl

/-- Witness for C10: under the `dataD` fixture the deletion listed by
`execute_plan` is really performed, and `apply_fixes` returns exactly the
recorded change set. -/
theorem C10_witness :
    FsOp.delete "old.txt" ∈ (execute_plan outD stepsD).2
  ∧ (apply_fixes (.ok dataD)).1 = [mkChangeSet "apply_fixes" "Applied reviewer fixes" dataD] :=
  ⟨(C10_changeset_application outD stepsD (.ok dataD)).2.1 csD (by decide) "old.txt" (by decide),
   (C10_changeset_application outD stepsD (.ok dataD)).2.2.2 dataD rfl⟩

/-! ### Engine infrastructure lemmas (shared by C2, C3, C8) -/

/-- A fold preserves any invariant its step preserves. -/
theorem foldlInv {α β : Type _} (Inv : α → Prop) (f : α → β → α)
    (l : List β) (a : α) (ha : Inv a) (step : ∀ x b, Inv x → Inv (f x b)) :
    Inv (l.foldl f a) := by
  induction l generalizing a with
  | nil => exact ha
  | cons b bs ih => exact ih (f a b) (step a b ha)

/-- The loop on the straight-line state agrees with the first passing round:
if some round within the remaining fuel passes, the engine stops there with
that round's state; otherwise the fuel runs out and the final-decision
epilogue runs on the state after all rounds. -/
theorem consensusLoop_eq (env : EngineEnv P C) (fuel k : Nat) :
    consensusLoop env fuel k (lineState env k)
      = match firstPassFrom env k fuel with
        | some r =>
          (⟨true, r, (lineState env r).unified, (lineState env r).votes,
             (lineState env r).transcript⟩, (lineState env r).events)
        | none => finalDecisionStep env (lineState env (k + fuel)) := by
  induction fuel generalizing k with
  | zero => rfl
  | succ n ih =>
    have hstep : doRound env (lineState env k) = lineState env (k + 1) := rfl
    simp only [consensusLoop, firstPassFrom, hstep]
    by_cases h : passAt env (k + 1)
    · have hb : allPass env (lineState env (k + 1)) = true := h
      simp only [hb, if_true, h]
    · have hb : allPass env (lineState env (k + 1)) = false := by
        simpa [passAt] using h
      have hb2 : passAt env (k + 1) = false := hb
      simp only [hb, hb2, Bool.false_eq_true, if_false]
      have harith : k + 1 + n = k + (n + 1) := by omega
      rw [ih (k + 1), harith]

/-- What `firstPassFrom env k fuel = some r` says about `r`: the first round
after `k` within the fuel window whose votes all pass. -/
theorem firstPassFrom_some (env : EngineEnv P C) :
    ∀ fuel k r, firstPassFrom env k fuel = some r →
      k < r ∧ r ≤ k + fuel ∧ passAt env r = true ∧
        ∀ j, k < j → j < r → passAt env j = false := by
  intro fuel
  induction fuel with
  | zero => intro k r h; cases h
  | succ n ih =>
    intro k r h
    simp only [firstPassFrom] at h
    by_cases hp : passAt env (k + 1)
    · rw [if_pos hp] at h
      cases h
      exact ⟨by omega, by omega, hp, fun j h1 h2 => absurd h1 (by omega)⟩
    · rw [if_neg hp] at h
      obtain ⟨h1, h2, h3, h4⟩ := ih (k + 1) r h
      have hp2 : passAt env (k + 1) = false := by simpa using hp
      refine ⟨by omega, by omega, h3, ?_⟩
      intro j hj1 hj2
      rcases Nat.eq_or_lt_of_le (Nat.succ_le_of_lt hj1) with he | hl
      · rw [← he]; exact hp2
      · exact h4 j hl hj2

/-- `firstPassFrom env k fuel = none` means no round in the window passes. -/
theorem firstPassFrom_none (env : EngineEnv P C) :
    ∀ fuel k, firstPassFrom env k fuel = none →
      ∀ j, k < j → j ≤ k + fuel → passAt env j = false := by
  intro fuel
  induction fuel with
  | zero => intro k _ j h1 h2; omega
  | succ n ih =>
    intro k h j h1 h2
    simp only [firstPassFrom] at h
    by_cases hp : passAt env (k + 1)
    · rw [if_pos hp] at h; cases h
    · rw [if_neg hp] at h
      rcases Nat.eq_or_lt_of_le (Nat.succ_le_of_lt h1) with he | hl
      · rw [← he]; simpa using hp
      · exact ih (k + 1) h j hl (by omega)

/-- Converse: if no round in the window passes, the search returns `none`. -/
theorem firstPassFrom_none_of_allFail (env : EngineEnv P C) :
    ∀ fuel k, (∀ j, k < j → j ≤ k + fuel → passAt env j = false) →
      firstPassFrom env k fuel = none := by
  intro fuel
  induction fuel with
  | zero => intro k _; rfl
  | succ n ih =>
    intro k h
    have hp : passAt env (k + 1) = false := h (k + 1) (by omega) (by omega)
    simp only [firstPassFrom, hp, Bool.false_eq_true, if_false]
    exact ih (k + 1) (fun j h1 h2 => h j (by omega) (by omega))

/-- `pushMessage` preserves a transcript invariant when the new message
satisfies it. -/
theorem pushMessage_roles (env : EngineEnv P C) (s : EngineState P C)
    (msg : DebateMessage)
    (hs : ∀ m ∈ s.transcript, m.role ≠ "FINAL_DECISION")
    (hmsg : msg.role ≠ "FINAL_DECISION") :
    ∀ m ∈ (pushMessage env s msg).transcript, m.role ≠ "FINAL_DECISION" := by
  intro m hm
  simp only [pushMessage, List.mem_append, List.mem_singleton] at hm
  rcases hm with h | h
  · exact hs m h
  · subst h; exact hmsg

/-- No message recorded by the proposal phase is a FINAL_DECISION. -/
theorem proposalPhase_roles (env : EngineEnv P C) :
    ∀ m ∈ (proposalPhase env).transcript, m.role ≠ "FINAL_DECISION" := by
  unfold proposalPhase
  refine foldlInv (fun t : EngineState P C => ∀ m ∈ t.transcript, m.role ≠ "FINAL_DECISION") _ _ _ ?_ ?_
  · intro m hm; cases hm
  · intro t a ht
    cases a.propose with
    | error e => exact ht
    | ok p =>
      refine pushMessage_roles env _ _ ht ?_
      show ("PROPOSAL" : String) ≠ "FINAL_DECISION"
      decide

/-- No message recorded during a round is a FINAL_DECISION. -/
theorem doRound_roles (env : EngineEnv P C) (s : EngineState P C)
    (hs : ∀ m ∈ s.transcript, m.role ≠ "FINAL_DECISION") :
    ∀ m ∈ (doRound env s).transcript, m.role ≠ "FINAL_DECISION" := by
  unfold doRound
  have h1 : ∀ m ∈ (critiquePhase env s).transcript, m.role ≠ "FINAL_DECISION" := by
    unfold critiquePhase
    refine foldlInv (fun t : EngineState P C => ∀ m ∈ t.transcript, m.role ≠ "FINAL_DECISION") _ _ _ ?_ ?_
    · exact hs
    · intro t a ht
      cases a.critique (t.plans.filter (fun kv => kv.1 != a.name)) with
      | error e => exact ht
      | ok c =>
        refine pushMessage_roles env _ _ ht ?_
        show ("CRITIQUE" : String) ≠ "FINAL_DECISION"
        decide
  have h2 : ∀ m ∈ (revisionPhase env (critiquePhase env s)).transcript,
      m.role ≠ "FINAL_DECISION" := by
    unfold revisionPhase
    refine foldlInv (fun t : EngineState P C => ∀ m ∈ t.transcript, m.role ≠ "FINAL_DECISION") _ _ _ ?_ ?_
    · exact h1
    · intro t a ht
      cases a.revise (((critiquePhase env s).plans.lookup a.name).getD env.emptyPlan)
          t.critiques with
      | error e => exact ht
      | ok r =>
        refine pushMessage_roles env _ _ ht ?_
        show ("REVISION" : String) ≠ "FINAL_DECISION"
        decide
  have h3 : ∀ m ∈ (synthesisPhase env (revisionPhase env (critiquePhase env s))).transcript,
      m.role ≠ "FINAL_DECISION" := by
    unfold synthesisPhase
    refine pushMessage_roles env _ _ h2 ?_
    show ("SYNTHESIS" : String) ≠ "FINAL_DECISION"
    decide
  unfold votePhase
  refine foldlInv (fun t : EngineState P C => ∀ m ∈ t.transcript, m.role ≠ "FINAL_DECISION") _ _ _ ?_ ?_
  · exact h3
  · intro t a ht
    refine pushMessage_roles env _ _ ht ?_
    show ("VOTE" : String) ≠ "FINAL_DECISION"
    decide

/-- No transcript message of any straight-line state is a FINAL_DECISION. -/
theorem lineState_roles (env : EngineEnv P C) (r : Nat) :
    ∀ m ∈ (lineState env r).transcript, m.role ≠ "FINAL_DECISION" := by
  induction r with
  | zero => exact proposalPhase_roles env
  | succ n ih => exact doRound_roles env _ ih

/-- `dictInsert` with a fresh key appends. -/
theorem dictInsert_append (k : String) (v : α) (l : List (String × α))
    (h : ∀ kv ∈ l, kv.1 ≠ k) : dictInsert k v l = l ++ [(k, v)] := by
  induction l with
  | nil => rfl
  | cons kv rest ih =>
    have hne : kv.1 ≠ k := h kv (List.mem_cons_self _ _)
    have ih2 := ih (fun kv2 h2 => h kv2 (List.mem_cons_of_mem _ h2))
    simp only [dictInsert, if_neg hne, ih2, List.cons_append]

/-- The vote fan-out over agents with pairwise-distinct and fresh names
records exactly one entry per agent, in agent order. -/
theorem votePhase_votes_aux (env : EngineEnv P C) (u : P) :
    ∀ (agents : List (DebateAgent P C)) (t : EngineState P C),
      t.unified = u →
      (agents.map DebateAgent.name).Nodup →
      (∀ a ∈ agents, ∀ kv ∈ t.votes, kv.1 ≠ a.name) →
      (agents.foldl (voteStep env) t).votes
        = t.votes ++ agents.map (fun a => (a.name, voteOutcome a u)) := by
  intro agents
  induction agents with
  | nil => intro t _ _ _; simp
  | cons a as ih =>
    intro t hu hnd hfresh
    have hins : dictInsert a.name (voteOutcome a u) t.votes
        = t.votes ++ [(a.name, voteOutcome a u)] :=
      dictInsert_append _ _ _ (fun kv hkv => hfresh a (List.mem_cons_self _ _) kv hkv)
    have hstepv : (voteStep env t a).votes
        = t.votes ++ [(a.name, voteOutcome a u)] := by
      simp only [voteStep, pushMessage]
      rw [hu, hins]
    have hstepu : (voteStep env t a).unified = u := hu
    have hnd2 : (as.map DebateAgent.name).Nodup := by
      simpa using hnd.of_cons
    have hanot : a.name ∉ as.map DebateAgent.name := by
      have := hnd
      simp only [List.map_cons, List.nodup_cons] at this
      exact this.1
    have hfresh2 : ∀ b ∈ as, ∀ kv ∈ (voteStep env t a).votes, kv.1 ≠ b.name := by
      intro b hb kv hkv
      rw [hstepv] at hkv
      rcases List.mem_append.mp hkv with h | h
      · exact hfresh b (List.mem_cons_of_mem _ hb) kv h
      · simp only [List.mem_singleton] at h
        subst h
        intro hcontra
        have he : a.name = b.name := hcontra
        exact hanot (by rw [he]; exact List.mem_map_of_mem DebateAgent.name hb)
    calc ((a :: as).foldl (voteStep env) t).votes
        = (as.foldl (voteStep env) (voteStep env t a)).votes := rfl
      _ = (voteStep env t a).votes ++ as.map (fun b => (b.name, voteOutcome b u)) :=
          ih (voteStep env t a) hstepu hnd2 hfresh2
      _ = t.votes ++ (a :: as).map (fun b => (b.name, voteOutcome b u)) := by
          rw [hstepv]; simp

/-- The recorded votes of the vote phase, for agents with distinct names. -/
theorem votePhase_votes (env : EngineEnv P C) (s : EngineState P C)
    (hnd : (env.agents.map DebateAgent.name).Nodup) :
    (votePhase env s).votes
      = env.agents.map (fun a => (a.name, voteOutcome a s.unified)) := by
  have h := votePhase_votes_aux env s.unified env.agents { s with votes := [] } rfl hnd
    (by intro a _ kv hkv; cases hkv)
  simpa [votePhase] using h

/-- The epilogue appends exactly one message, a FINAL_DECISION. -/
theorem finalDecisionStep_transcript (env : EngineEnv P C) (s : EngineState P C) :
    ∃ msg, (finalDecisionStep env s).1.transcript = s.transcript ++ [msg]
      ∧ msg.role = "FINAL_DECISION" :=
  ⟨_, rfl, rfl⟩

/-! ### C2 — consensus achievement -/

/-- Claim C2: the engine returns `achieved = true` iff some round within the
allowed window ends with every recorded vote at or above the threshold; on
achievement it stops at the first such round and returns that round's
1-based number, unified plan, votes and transcript; in particular, with the
default threshold 7.0, an all-passing first round gives
`achieved = true, rounds = 1`. -/
theorem C2_consensus_iff (P C : Type) (env : EngineEnv P C)
    (hmax : 1 ≤ env.max_consensus_rounds) :
    ((ConsensusEngine.run env).1.achieved = true
       ↔ ∃ r, 1 ≤ r ∧ r ≤ env.max_consensus_rounds ∧ passAt env r = true)
  ∧ (∀ r, firstPassFrom env 0 env.max_consensus_rounds = some r →
       (ConsensusEngine.run env).1
         = ⟨true, r, (lineState env r).unified, (lineState env r).votes,
             (lineState env r).transcript⟩)
  ∧ (env.consensus_threshold = 7 → passAt env 1 = true →
       (ConsensusEngine.run env).1.achieved = true
         ∧ (ConsensusEngine.run env).1.rounds = 1) := by
  have hrun : ConsensusEngine.run env
      = consensusLoop env env.max_consensus_rounds 0 (lineState env 0) := rfl
  rw [hrun, consensusLoop_eq]
  cases hfp : firstPassFrom env 0 env.max_consensus_rounds with
  | some r0 =>
    obtain ⟨h1, h2, h3, h4⟩ := firstPassFrom_some env _ 0 r0 hfp
    refine ⟨?_, ?_, ?_⟩
    · exact ⟨fun _ => ⟨r0, h1, by omega, h3⟩, fun _ => rfl⟩
    · intro r hr
      cases hr
      rfl
    · intro _ hp1
      have hr1 : r0 = 1 := by
        by_contra hne
        have : passAt env 1 = false := h4 1 (by omega) (by omega)
        rw [this] at hp1
        cases hp1
      subst hr1
      exact ⟨rfl, rfl⟩
  | none =>
    have hall := firstPassFrom_none env _ 0 hfp
    refine ⟨?_, ?_, ?_⟩
    · constructor
      · intro hach
        cases hach
      · rintro ⟨r, hr1, hr2, hr3⟩
        have := hall r (by omega) (by omega)
        rw [this] at hr3
        cases hr3
    · intro r hr
      cases hr
    · intro _ hp1
      have := hall 1 (by omega) (by omega)
      rw [this] at hp1
      cases hp1

/-- Witness for C2: the all-passing fixture converges in round one. -/
theorem C2_witness :
    (ConsensusEngine.run envAllPass).1.achieved = true
  ∧ (ConsensusEngine.run envAllPass).1.rounds = 1 :=
  (C2_consensus_iff Nat Nat envAllPass (by decide)).2.2 rfl (by decide)

/-! ### C3 — final-decision fallback -/

/-- Claim C3: when every round within the window has some vote below the
threshold, the engine runs all rounds, asks the mediator for a final
decision, commits the mediator's plan (or, if that call raises, the current
unified plan), returns `achieved = false` with `rounds` equal to the round
limit, and appends exactly one FINAL_DECISION message to the transcript. -/
theorem C3_final_decision (P C : Type) (env : EngineEnv P C)
    (hmax : 1 ≤ env.max_consensus_rounds)
    (hfail : ∀ r, 1 ≤ r → r ≤ env.max_consensus_rounds →
       ((lineState env r).votes.any
           (fun kv => decide (kv.2.score < env.consensus_threshold))) = true) :
    (ConsensusEngine.run env).1.achieved = false
  ∧ (ConsensusEngine.run env).1.rounds = env.max_consensus_rounds
  ∧ ((ConsensusEngine.run env).1.unified_plan
       = match env.orchestrator.final_decision
             (lineState env env.max_consensus_rounds).plans
             (lineState env env.max_consensus_rounds).critiques
             (lineState env env.max_consensus_rounds).votes with
         | .ok p => p
         | .error _ => (lineState env env.max_consensus_rounds).unified)
  ∧ (ConsensusEngine.run env).1.transcript.countP
       (fun m => m.role == "FINAL_DECISION") = 1 := by
  have hpass : ∀ j, 0 < j → j ≤ 0 + env.max_consensus_rounds → passAt env j = false := by
    intro j h1 h2
    have hany := hfail j h1 (by omega)
    rw [List.any_eq_true] at hany
    obtain ⟨kv, hkv, hlt⟩ := hany
    have hlt2 : kv.2.score < env.consensus_threshold := of_decide_eq_true hlt
    cases hq : passAt env j with
    | false => rfl
    | true =>
      exfalso
      have hall : allPass env (lineState env j) = true := hq
      unfold allPass at hall
      rw [List.all_eq_true] at hall
      have := of_decide_eq_true (hall kv hkv)
      exact absurd this (not_le.mpr hlt2)
  have hfp : firstPassFrom env 0 env.max_consensus_rounds = none :=
    firstPassFrom_none_of_allFail env _ 0 hpass
  have hrun : ConsensusEngine.run env
      = consensusLoop env env.max_consensus_rounds 0 (lineState env 0) := rfl
  rw [hrun, consensusLoop_eq, hfp]
  rw [Nat.zero_add]
  refine ⟨rfl, rfl, rfl, ?_⟩
  obtain ⟨msg, hmsg, hrole⟩ := finalDecisionStep_transcript env
    (lineState env env.max_consensus_rounds)
  rw [hmsg, List.countP_append]
  have h0 : (lineState env env.max_consensus_rounds).transcript.countP
      (fun m => m.role == "FINAL_DECISION") = 0 := by
    rw [List.countP_eq_zero]
    intro m hm
    have := lineState_roles env env.max_consensus_rounds m hm
    simpa using this
  rw [h0]
  simp [List.countP_cons, hrole]

/-- Witness for C3: with a reviewer stuck at score 5 and two allowed rounds,
the run ends unachieved after two rounds. -/
theorem C3_witness :
    (ConsensusEngine.run envNeverPass).1.achieved = false
  ∧ (ConsensusEngine.run envNeverPass).1.rounds = 2 := by
  have h := C3_final_decision Nat Nat envNeverPass (by decide) ?_
  · exact ⟨h.1, h.2.1⟩
  · intro r h1 h2
    have h2b : r ≤ 2 := h2
    interval_cases r
    · decide
    · decide

/-! ### C7 — debate_message events and the job id -/

/-- Claim C7 is violated by the source: with a supplied job id, every
PROPOSAL / CRITIQUE / REVISION / SYNTHESIS / VOTE event payload carries the
job id, but the FINAL_DECISION message — although appended to the
transcript — is emitted through the raw bus call (engine.py, line 199)
rather than `emit_message`, so its payload carries no job id. -/
theorem C7_final_event_job_id :
    envFinalWithJob.job_id = some "job-1"
  ∧ ((ConsensusEngine.run envFinalWithJob).2.map (fun ev => (ev.1, ev.2.role))
      = [(some "job-1", "PROPOSAL"), (some "job-1", "CRITIQUE"), (some "job-1", "REVISION"),
         (some "job-1", "SYNTHESIS"), (some "job-1", "VOTE"), (none, "FINAL_DECISION")])
  ∧ ((ConsensusEngine.run envFinalWithJob).1.transcript.map DebateMessage.role
      = ["PROPOSAL", "CRITIQUE", "REVISION", "SYNTHESIS", "VOTE", "FINAL_DECISION"]) := by
  refine ⟨rfl, by decide, by decide⟩

/-! ### C8 — vote approval and failure recording (amended) -/

/-- Claim C8 (amended): `vote_on_plan` approves iff the score is at least
7.0 only when the backend reply omits the `approve` key (the default is the
hard-coded 7.0, not the configured threshold; a supplied `approve` value is
taken as-is).  In the vote fan-out over reviewers with distinct names, each
reviewer whose vote call raises is recorded as `failedVote` — score 0,
approve false, rationale prefixed by the failure — and every other
reviewer's returned vote is recorded intact. -/
theorem C8_vote_recording (P C : Type) :
    (∀ (name : String) (data : VoteData), data.approve = none →
       ((vote_on_plan name data).approve = true ↔ 7 ≤ (vote_on_plan name data).score))
  ∧ (∀ (env : EngineEnv P C) (s : EngineState P C),
       (env.agents.map DebateAgent.name).Nodup →
       (votePhase env s).votes
         = env.agents.map (fun a => (a.name, voteOutcome a s.unified)))
  ∧ (∀ name e, (failedVote name e).score = 0 ∧ (failedVote name e).approve = false
       ∧ (failedVote name e).rationale = "Vote failed: " ++ e) := by
  refine ⟨?_, ?_, ?_⟩
  · intro name data h
    simp only [vote_on_plan, h, Option.getD_none]
    exact decide_eq_true_iff
  · intro env s hnd
    exact votePhase_votes env s hnd
  · intro name e
    exact ⟨rfl, rfl, rfl⟩

/-- Witness for C8: with one raising reviewer and one scoring 8, the fan-out
records the failure vote and keeps the other vote intact; and an omitted
`approve` key defaults to score ≥ 7. -/
theorem C8_witness :
    (votePhase envMixedVotes (proposalPhase envMixedVotes)).votes
      = [("Architect", failedVote "Architect" "boom"),
         ("Builder", ⟨"Builder", 8, true, [], [], "fine"⟩)]
  ∧ (vote_on_plan "Builder" { score := some 9 }).approve = true := by
  constructor
  · rw [(C8_vote_recording Nat Nat).2.1 envMixedVotes (proposalPhase envMixedVotes) (by decide)]
    decide
  · exact ((C8_vote_recording Nat Nat).1 "Builder" { score := some 9 } rfl).2 (by decide)

/-! ### C4 — pipeline event shape -/

/-- A successful `try` block emits the six canonical phase pairs, plus the
learning pair exactly when a knowledge base is configured. -/
theorem pipelinePhases_ok (o : PipelineOracles)
    (h : (pipelinePhases o).2 = Except.ok ()) :
    (pipelinePhases o).1
      = [ps "ingestion", pc "ingestion", ps "audit", pc "audit",
         ps "consensus", pc "consensus", ps "execution", pc "execution",
         ps "review", pc "review", ps "validation", pc "validation"]
        ++ (if o.knowledge_base then [ps "learning", pc "learning"] else []) := by
  rcases h1 : o.ingest with e1 | u1 <;> simp only [pipelinePhases, h1] at h ⊢
  · simp at h
  by_cases h2 : ([o.architect_audit, o.auditor_audit, o.builder_audit].countP exceptOk) = 0
  · rw [if_pos h2] at h ⊢
    simp at h
  rw [if_neg h2] at h ⊢
  rcases h3 : o.consensus with e3 | u3 <;> simp only [h3] at h ⊢
  · simp at h
  rcases h4 : o.execute with e4 | u4 <;> simp only [h4] at h ⊢
  · simp at h
  by_cases h5 : ([o.architect_review, o.auditor_review].countP exceptOk) = 0
  · rw [if_pos h5] at h ⊢
    simp at h
  rw [if_neg h5] at h ⊢
  rcases h6 : (if (collectRejections [o.architect_review, o.auditor_review]).isEmpty
      then Except.ok () else o.fixes) with e6 | u6 <;> simp only [h6] at h ⊢
  · simp at h
  rcases h7 : o.validate with e7 | u7 <;> simp only [h7] at h ⊢
  · simp at h
  cases hkb : o.knowledge_base <;> simp only [hkb, if_true, if_false] at h ⊢
  · simp
  rcases h8 : o.learn with e8 | u8 <;> simp only [h8] at h ⊢
  · simp at h
  simp

/-- Claim C4 counterexample: a run in which every awaited call succeeds but
no knowledge base is configured completes successfully, yet emits only six
phase pairs — the learning phase emits nothing — so the claimed
seven-pair shape does not hold of every successful run. -/
theorem C4_counterexample :
    (Pipeline.run (allOkOracles false)).2 = true
  ∧ (Pipeline.run (allOkOracles false)).1.map PhaseEvent.name ≠ sevenPhasePairNames := by
  refine ⟨by decide, by decide⟩

/-- Claim C4 (amended): a successful run emits `pipeline_started`, then the
matched phase pairs in canonical order — seven pairs when a knowledge base
is configured, six otherwise — then `pipeline_completed`; every failed run
emits `pipeline_started … pipeline_failed pipeline_completed`. -/
theorem C4_event_shape (o : PipelineOracles) :
    ((Pipeline.run o).2 = true →
       (Pipeline.run o).1
         = if o.knowledge_base then fullTraceWithLearning else fullTraceWithoutLearning)
  ∧ ((Pipeline.run o).2 = false →
       ∃ mid, (Pipeline.run o).1.map PhaseEvent.name
         = "pipeline_started" :: (mid ++ ["pipeline_failed", "pipeline_completed"])) := by
  rcases hpp : pipelinePhases o with ⟨evs, res⟩
  cases res with
  | ok u =>
    cases u
    have hok : (pipelinePhases o).2 = Except.ok () := by rw [hpp]
    have hevs : evs
        = [ps "ingestion", pc "ingestion", ps "audit", pc "audit",
           ps "consensus", pc "consensus", ps "execution", pc "execution",
           ps "review", pc "review", ps "validation", pc "validation"]
          ++ (if o.knowledge_base then [ps "learning", pc "learning"] else []) := by
      have := pipelinePhases_ok o hok
      rw [hpp] at this
      exact this
    constructor
    · intro _
      have hrun : (Pipeline.run o).1
          = (⟨"pipeline_started", none⟩ :: evs ++ [⟨"pipeline_completed", none⟩] :
              List PhaseEvent) := by
        simp [Pipeline.run, hpp]
      rw [hrun]
      cases hkb : o.knowledge_base <;>
        simp [hevs, hkb, fullTraceWithLearning, fullTraceWithoutLearning]
    · intro hfail
      have : (Pipeline.run o).2 = true := by
        simp [Pipeline.run, hpp]
      rw [this] at hfail
      cases hfail
  | error err =>
    constructor
    · intro hok
      have : (Pipeline.run o).2 = false := by
        simp [Pipeline.run, hpp]
      rw [this] at hok
      cases hok
    · intro _
      refine ⟨evs.map PhaseEvent.name, ?_⟩
      have hrun : (Pipeline.run o).1
          = (⟨"pipeline_started", none⟩ :: evs ++
              [⟨"pipeline_failed", none⟩, ⟨"pipeline_completed", none⟩] : List PhaseEvent) := by
        simp [Pipeline.run, hpp]
      rw [hrun]
      simp

/-- Witness for C4: the all-success run with a knowledge base yields the
seven-pair trace; an ingestion failure yields the failed-run shape. -/
theorem C4_witness :
    (Pipeline.run (allOkOracles true)).1 = fullTraceWithLearning
  ∧ (∃ mid, (Pipeline.run ingestFailOracles).1.map PhaseEvent.name
       = "pipeline_started" :: (mid ++ ["pipeline_failed", "pipeline_completed"])) := by
  constructor
  · have h := (C4_event_shape (allOkOracles true)).1 (by decide)
    simpa using h
  · exact (C4_event_shape ingestFailOracles).2 (by decide)

end RepoMan
